import Mathlib

/-!
Shallow embedding, in Lean 4, of the core string/mail pipeline of the
mail_grep repository (src/mail_string_utils.py, src/search_pattern.py,
src/mail_message.py, src/mbox_classifier.py, src/hit_report.py), together
with theorems settling the specification claims about it.

Python strings are modeled as Lean `String`/`List Char`, Python `bytes` as
`List Nat` (each entry one byte value), Python `None`-able dynamic values as
`Option`/a small variant type, and Python exceptions as `Option`/`Except`
results handled at the same places the source handles them.
-/

set_option maxHeartbeats 1000000

namespace MailGrep

/-! ## Generic Python string-operation model -/

/-- Tests whether the character list `pre` is a prefix of `l`. Used to model
substring search and `str.replace` scanning. -/
def listStartsWith : List Char → List Char → Bool
  | [], _ => true
  | _ :: _, [] => false
  | a :: pre, b :: l => a == b && listStartsWith pre l

/-- Tests whether `pat` occurs as a contiguous substring of the second list.
Models the Python `in` operator on strings. -/
def listContainsSub (pat : List Char) : List Char → Bool
  | [] => listStartsWith pat []
  | l@(_ :: t) => listStartsWith pat l || listContainsSub pat t

/-- Models the Python expression `pat in s` for strings. -/
def strContainsSub (s pat : String) : Bool := listContainsSub pat.data s.data

/-- Worker for `pyReplace`: when `skip` is positive the next character
belongs to an occurrence already replaced and is dropped; at `skip = 0` an
occurrence of `old` starting here is replaced by `new` (and the remaining
`old.length - 1` characters of the occurrence scheduled for dropping),
otherwise the character is kept. -/
def pyReplaceGo (old new : List Char) : Nat → List Char → List Char
  | _, [] => []
  | skip + 1, _ :: xs => pyReplaceGo old new skip xs
  | 0, x :: xs =>
    if listStartsWith old (x :: xs) then new ++ pyReplaceGo old new (old.length - 1) xs
    else x :: pyReplaceGo old new 0 xs

/-- Models Python `str.replace(old, new)` on character lists: replaces each
non-overlapping occurrence of `old`, scanning left to right. Python's
behaviour for an empty `old` (inserting everywhere) is not needed by the
source, which only replaces non-empty substrings; an empty `old` is modeled
as the identity. -/
def pyReplace (old new : List Char) (l : List Char) : List Char :=
  if old = [] then l else pyReplaceGo old new 0 l

/-- Models Python `str.replace(old, new)` on strings. -/
def strReplace (s old new : String) : String :=
  String.mk (pyReplace old.data new.data s.data)

/-- Strips leading and trailing whitespace from a character list. Models
Python `str.strip()` restricted to the ASCII whitespace relevant here. -/
def stripChars (l : List Char) : List Char :=
  ((l.dropWhile Char.isWhitespace).reverse.dropWhile Char.isWhitespace).reverse

/-- Models Python `str.strip()`. -/
def pyStrip (s : String) : String := String.mk (stripChars s.data)

/-- Worker for `pySplitlines`: splits at LF, CR, and CRLF, accumulating the
current line in reverse in `acc`. A line terminator ends a line; trailing
content without a terminator forms a final line; empty input yields no
lines. -/
def splitLinesGo : List Char → List Char → List (List Char)
  | [], acc => if acc.isEmpty then [] else [acc.reverse]
  | '\r' :: '\n' :: rest, acc => acc.reverse :: splitLinesGo rest []
  | '\r' :: rest, acc => acc.reverse :: splitLinesGo rest []
  | '\n' :: rest, acc => acc.reverse :: splitLinesGo rest []
  | c :: rest, acc => splitLinesGo rest (c :: acc)

/-- Models Python `str.splitlines()` for the LF/CR/CRLF terminators that can
occur in this pipeline. -/
def pySplitlines (s : String) : List String :=
  (splitLinesGo s.data []).map String.mk

/-- Models Python `str.lower()` character-wise (kernel-computable, unlike
core `String.toLower`). -/
def pyToLower (s : String) : String := String.mk (s.data.map Char.toLower)

/-- Byte list of an ASCII string; a convenience builder for concrete test
inputs (each character must be ASCII for this to model an actual encode). -/
def asciiBytes (s : String) : List Nat := s.data.map Char.toNat

/-! ## Byte-decoding model (Python `bytes.decode` for the charsets in play) -/

/-- Tests for a UTF-8 continuation byte (0x80..0xBF). -/
def contByte (b : Nat) : Bool := 0x80 ≤ b && b ≤ 0xBF

/-- Valid second byte for a three-byte UTF-8 sequence led by `b` (the E0
and ED rows exclude overlong forms and surrogates, matching Python's strict
decoder). -/
def validB2of3 (b b2 : Nat) : Bool :=
  (if b = 0xE0 then 0xA0 else 0x80) ≤ b2 && b2 ≤ (if b = 0xED then 0x9F else 0xBF)

/-- Valid second byte for a four-byte UTF-8 sequence led by `b` (the F0 and
F4 rows exclude overlong forms and values above U+10FFFF). -/
def validB2of4 (b b2 : Nat) : Bool :=
  (if b = 0xF0 then 0x90 else 0x80) ≤ b2 && b2 ≤ (if b = 0xF4 then 0x8F else 0xBF)

/-- Fueled worker for `utf8DecodeStrict`: each step consumes at least one
byte, so fuel exceeding the list length never runs out; fuel makes the
recursion structural (hence kernel-computable). -/
def utf8StrictFuel : Nat → List Nat → Option (List Char)
  | 0, _ => none
  | _ + 1, [] => some []
  | fuel + 1, b :: rest =>
    if b ≤ 0x7F then (utf8StrictFuel fuel rest).map (fun cs => Char.ofNat b :: cs)
    else if 0xC2 ≤ b && b ≤ 0xDF then
      match rest with
      | b2 :: r =>
        if contByte b2 then
          (utf8StrictFuel fuel r).map (fun cs => Char.ofNat ((b - 0xC0) * 0x40 + (b2 - 0x80)) :: cs)
        else none
      | [] => none
    else if 0xE0 ≤ b && b ≤ 0xEF then
      match rest with
      | b2 :: b3 :: r =>
        if validB2of3 b b2 && contByte b3 then
          (utf8StrictFuel fuel r).map
            (fun cs => Char.ofNat ((b - 0xE0) * 0x1000 + (b2 - 0x80) * 0x40 + (b3 - 0x80)) :: cs)
        else none
      | _ => none
    else if 0xF0 ≤ b && b ≤ 0xF4 then
      match rest with
      | b2 :: b3 :: b4 :: r =>
        if validB2of4 b b2 && contByte b3 && contByte b4 then
          (utf8StrictFuel fuel r).map (fun cs => Char.ofNat
            ((b - 0xF0) * 0x40000 + (b2 - 0x80) * 0x1000 + (b3 - 0x80) * 0x40 + (b4 - 0x80)) :: cs)
        else none
      | _ => none
    else none

/-- Models Python `bytes.decode("utf-8", errors="strict")` (see
`utf8StrictFuel` for the per-byte rules). -/
def utf8DecodeStrict (l : List Nat) : Option (List Char) :=
  utf8StrictFuel (l.length + 1) l

/-- Models Python `bytes.decode("utf-8", errors="replace")`: an undecodable
position emits U+FFFD and resynchronizes. The error handler's
resynchronization is modeled byte-by-byte, which agrees with Python on the
inputs considered in this development (in particular on all-ASCII input). -/
def utf8ReplaceFuel : Nat → List Nat → List Char
  | 0, _ => []
  | _ + 1, [] => []
  | fuel + 1, b :: rest =>
    if b ≤ 0x7F then Char.ofNat b :: utf8ReplaceFuel fuel rest
    else if 0xC2 ≤ b && b ≤ 0xDF then
      match rest with
      | b2 :: r =>
        if contByte b2 then
          Char.ofNat ((b - 0xC0) * 0x40 + (b2 - 0x80)) :: utf8ReplaceFuel fuel r
        else Char.ofNat 0xFFFD :: utf8ReplaceFuel fuel rest
      | [] => [Char.ofNat 0xFFFD]
    else if 0xE0 ≤ b && b ≤ 0xEF then
      match rest with
      | b2 :: b3 :: r =>
        if validB2of3 b b2 && contByte b3 then
          Char.ofNat ((b - 0xE0) * 0x1000 + (b2 - 0x80) * 0x40 + (b3 - 0x80))
            :: utf8ReplaceFuel fuel r
        else Char.ofNat 0xFFFD :: utf8ReplaceFuel fuel rest
      | _ => Char.ofNat 0xFFFD :: utf8ReplaceFuel fuel rest
    else if 0xF0 ≤ b && b ≤ 0xF4 then
      match rest with
      | b2 :: b3 :: b4 :: r =>
        if validB2of4 b b2 && contByte b3 && contByte b4 then
          Char.ofNat ((b - 0xF0) * 0x40000 + (b2 - 0x80) * 0x1000 + (b3 - 0x80) * 0x40 + (b4 - 0x80))
            :: utf8ReplaceFuel fuel r
        else Char.ofNat 0xFFFD :: utf8ReplaceFuel fuel rest
      | _ => Char.ofNat 0xFFFD :: utf8ReplaceFuel fuel rest
    else Char.ofNat 0xFFFD :: utf8ReplaceFuel fuel rest

/-- Models Python `bytes.decode("utf-8", errors="replace")` (see
`utf8ReplaceFuel`; fuel exceeding the length never runs out). -/
def utf8DecodeReplaceChars (l : List Nat) : List Char :=
  utf8ReplaceFuel (l.length + 1) l

/-- Models Python `bytes.decode("utf-8", errors="replace")` as a string. -/
def utf8ReplaceStr (l : List Nat) : String := String.mk (utf8DecodeReplaceChars l)

/-- Models Latin-1 decoding of a byte list: every byte maps to the character
with the same code point, so this decode is total and length-preserving. -/
def latin1Chars (l : List Nat) : List Char := l.map (fun b => Char.ofNat (b % 256))

/-- Models Python `repr(bytes)`: `b'...'` with printable ASCII kept and other
bytes shown as `\xHH` escapes. Only reachable from a fallback branch of the
source that a total Latin-1 decode makes dead. -/
def reprBytes (l : List Nat) : String :=
  let hexDigit : Nat → Char := fun n =>
    if n < 10 then Char.ofNat (48 + n) else Char.ofNat (87 + n)
  let esc : Nat → List Char := fun b =>
    if 0x20 ≤ b && b ≤ 0x7E && b ≠ 0x27 && b ≠ 0x5C then [Char.ofNat b]
    else ['\\', 'x', hexDigit (b / 16), hexDigit (b % 16)]
  String.mk (('b' :: '\x27' :: (l.map esc).flatten) ++ ['\x27'])

/-- Models Python codec lookup plus `bytes.decode(enc, errors="strict")` for
the charset names this pipeline can meet; an unknown name models the
`LookupError` raised by the codec registry, and `none` also models a strict
`UnicodeDecodeError`. -/
def strictDecodeCharset (enc : String) (l : List Nat) : Option String :=
  let e := pyToLower enc
  if e = "utf-8" || e = "utf8" || e = "u8" then
    (utf8DecodeStrict l).map String.mk
  else if e = "latin1" || e = "latin-1" || e = "iso-8859-1" || e = "l1" then
    some (String.mk (latin1Chars l))
  else if e = "ascii" || e = "us-ascii" then
    if l.all (fun b => b ≤ 0x7F) then some (String.mk (l.map Char.ofNat)) else none
  else none

/-- Models `bytes.decode(enc, errors="replace")` for the same charset names:
an unknown charset still raises `LookupError` (modeled as `none`); known
charsets never fail because undecodable bytes are replaced. -/
def replaceDecodeCharset (enc : String) (l : List Nat) : Option String :=
  let e := pyToLower enc
  if e = "utf-8" || e = "utf8" || e = "u8" then
    some (utf8ReplaceStr l)
  else if e = "latin1" || e = "latin-1" || e = "iso-8859-1" || e = "l1" then
    some (String.mk (latin1Chars l))
  else if e = "ascii" || e = "us-ascii" then
    some (String.mk (l.map (fun b => if b ≤ 0x7F then Char.ofNat b else Char.ofNat 0xFFFD)))
  else none

/-! ## src/mail_string_utils.py -/

/-- Dynamic Python value as it can reach the header-string helpers: `None`,
a `str`, a `bytes`, or an address-collection object (duck-typed in the
source by the presence of `.addresses`; its payload here is the result of
`str(v)`, with `none` modeling a raising `str()`). -/
inductive PyVal where
  | pynone : PyVal
  | pystr : String → PyVal
  | pybytes : List Nat → PyVal
  | pyaddr : Option String → PyVal
deriving DecidableEq

namespace CsvFieldText

/-- Models `CsvFieldText._to_str`: `None` becomes the empty string, a string
passes through (other Python values would stringify via `str()`, which the
claims considered here never need). -/
def to_str : Option String → String
  | none => ""
  | some s => s

/-- Models `CsvFieldText.sanitize`: stringify, drop every CR, replace every
LF with the visible return glyph U+23CE. -/
def sanitize (value : Option String) : String :=
  let s : String := to_str value
  strReplace (strReplace s "\r" "") "\n" "⏎"

end CsvFieldText

namespace AnyText

/-- Models `AnyText.to_str`: `None` → empty; an `.addresses`-bearing object
→ its `str()` rendering with a raising rendering swallowed to empty; bytes
→ UTF-8 decode with replacement; a string passes through. -/
def to_str : PyVal → String
  | .pynone => ""
  | .pyaddr r =>
    match r with
    | some s => s
    | none => ""
  | .pybytes b => utf8ReplaceStr b
  | .pystr s => s

end AnyText

namespace RawHeaderText

/-- Models `RawHeaderText.remove_crlf`: empty input stays empty; otherwise
remove every CR and turn every LF into a single space. -/
def remove_crlf (value : String) : String :=
  if value = "" then ""
  else strReplace (strReplace value "\r" "") "\n" " "

end RawHeaderText

/-! ### Model of stdlib `email.header.decode_header`

`EncodedHeader.decode` calls the standard library's `decode_header`, which
splits a header into plain-text and RFC 2047 encoded-word fragments. The
model below covers: a header with no encoded word comes back as the single
fragment `(str, None)`; encoded words `=?charset?B?...?=` / `=?charset?Q?...?=`
come back as byte fragments tagged with their declared charset; in the mixed
case the unencoded gaps come back as byte fragments with no charset (the
stdlib encodes them via raw-unicode-escape, modeled as the characters' code
points); a structurally matching encoded word whose Base64 payload does not
decode raises `HeaderParseError`, modeled as `none`. The stdlib's stripping
of whitespace around encoded words is not modeled; no theorem below depends
on it. -/

/-- Splits a character list at the first occurrence of the non-empty
substring `pat`, dropping it. -/
def splitAtSub (pat : List Char) : List Char → Option (List Char × List Char)
  | [] => none
  | x :: xs =>
    if listStartsWith pat (x :: xs) then some ([], (x :: xs).drop pat.length)
    else (splitAtSub pat xs).map (fun p => (x :: p.1, p.2))

theorem splitAtSub_length {pat : List Char} (hpat : pat ≠ []) :
    ∀ {l a b : List Char}, splitAtSub pat l = some (a, b) → b.length < l.length := by
  intro l
  induction l with
  | nil => intro a b h; simp [splitAtSub] at h
  | cons x xs ih =>
    intro a b h
    rw [splitAtSub] at h
    split at h
    · simp only [Option.some.injEq, Prod.mk.injEq] at h
      obtain ⟨-, rfl⟩ := h
      have hp : 0 < pat.length := List.length_pos.mpr hpat
      simp only [List.length_drop, List.length_cons]
      omega
    · cases hs : splitAtSub pat xs with
      | none => rw [hs] at h; simp at h
      | some p =>
        obtain ⟨p1, p2⟩ := p
        rw [hs] at h
        simp only [Option.map_some', Option.some.injEq, Prod.mk.injEq] at h
        obtain ⟨-, rfl⟩ := h
        have := ih hs
        simp only [List.length_cons]
        omega

/-- Splits a character list at the first occurrence of `c`, dropping it. -/
def splitAtChar (c : Char) (l : List Char) : Option (List Char × List Char) :=
  splitAtSub [c] l

theorem splitAtChar_length {c : Char} {l a b : List Char}
    (h : splitAtChar c l = some (a, b)) : b.length < l.length :=
  splitAtSub_length (by simp) h

/-- Splits a character list at the first occurrence of the two-character
terminator `?=`, dropping it. -/
def splitAtQEq (l : List Char) : Option (List Char × List Char) :=
  splitAtSub ['?', '='] l

theorem splitAtQEq_length {l a b : List Char}
    (h : splitAtQEq l = some (a, b)) : b.length < l.length :=
  splitAtSub_length (by simp) h

/-- Value of a Base64 alphabet character. -/
def b64Val (c : Char) : Option Nat :=
  if 'A' ≤ c ∧ c ≤ 'Z' then some (c.toNat - 65)
  else if 'a' ≤ c ∧ c ≤ 'z' then some (c.toNat - 97 + 26)
  else if '0' ≤ c ∧ c ≤ '9' then some (c.toNat - 48 + 52)
  else if c = '+' then some 62
  else if c = '/' then some 63
  else none

/-- Models Base64 decoding by groups of four characters with optional
trailing padding; `none` models `binascii.Error`. -/
def b64DecodeGroups : List Char → Option (List Nat)
  | [] => some []
  | a :: b :: '=' :: '=' :: [] =>
    match b64Val a, b64Val b with
    | some va, some vb => some [va * 4 + vb / 16]
    | _, _ => none
  | a :: b :: c :: '=' :: [] =>
    match b64Val a, b64Val b, b64Val c with
    | some va, some vb, some vc => some [va * 4 + vb / 16, vb % 16 * 16 + vc / 4]
    | _, _, _ => none
  | a :: b :: c :: d :: rest =>
    match b64Val a, b64Val b, b64Val c, b64Val d with
    | some va, some vb, some vc, some vd =>
      (b64DecodeGroups rest).map
        (fun t => (va * 4 + vb / 16) :: (vb % 16 * 16 + vc / 4) :: (vc % 4 * 64 + vd) :: t)
    | _, _, _, _ => none
  | _ => none

/-- Models `base64.b64decode` on the payload of a B-encoded word. -/
def b64Decode (s : String) : Option (List Nat) :=
  b64DecodeGroups (s.data.filter (fun c => c ≠ ' '))

/-- Hexadecimal digit value. -/
def hexVal (c : Char) : Option Nat :=
  if '0' ≤ c ∧ c ≤ '9' then some (c.toNat - 48)
  else if 'A' ≤ c ∧ c ≤ 'F' then some (c.toNat - 55)
  else if 'a' ≤ c ∧ c ≤ 'f' then some (c.toNat - 87)
  else none

/-- Models Q-encoding decode (`email.quoprimime.header_decode`): `_` becomes
a space byte, `=HH` a byte, anything else its own code point; it never
fails. -/
def qDecode : List Char → List Nat
  | [] => []
  | '_' :: r => 0x20 :: qDecode r
  | '=' :: h1 :: h2 :: r =>
    match hexVal h1, hexVal h2 with
    | some a, some b => (16 * a + b) :: qDecode r
    | _, _ => Char.toNat '=' :: qDecode (h1 :: h2 :: r)
  | c :: r => c.toNat :: qDecode r
termination_by l => l.length

/-- Result of trying to read one encoded word: not an encoded word at all,
a structurally valid word whose payload fails to decode (the stdlib raises
`HeaderParseError` there), or a decoded word. -/
inductive EwParse where
  | notWord : EwParse
  | failed : EwParse
  | ok : List Nat → Option String → List Char → EwParse

/-- Reads one encoded word from the input positioned just after `=?`:
charset up to `?`, encoding letter up to `?`, payload up to `?=`. -/
def parseEncodedWord (l : List Char) : EwParse :=
  match splitAtChar '?' l with
  | none => .notWord
  | some (cs, r1) =>
    match splitAtChar '?' r1 with
    | none => .notWord
    | some (e, r2) =>
      match splitAtQEq r2 with
      | none => .notWord
      | some (payload, r3) =>
        let encName := pyToLower (String.mk e)
        if encName = "b" then
          match b64Decode (String.mk payload) with
          | some bs => .ok bs (some (String.mk cs)) r3
          | none => .failed
        else if encName = "q" then .ok (qDecode payload) (some (String.mk cs)) r3
        else .notWord

theorem parseEncodedWord_length {l : List Char} {bs : List Nat} {cs : Option String}
    {r : List Char} (h : parseEncodedWord l = .ok bs cs r) : r.length < l.length := by
  unfold parseEncodedWord at h
  cases h1 : splitAtChar '?' l with
  | none => simp only [h1] at h; exact EwParse.noConfusion h
  | some p1 =>
    obtain ⟨csname, r1⟩ := p1
    simp only [h1] at h
    cases h2 : splitAtChar '?' r1 with
    | none => simp only [h2] at h; exact EwParse.noConfusion h
    | some p2 =>
      obtain ⟨e, r2⟩ := p2
      simp only [h2] at h
      cases h3 : splitAtQEq r2 with
      | none => simp only [h3] at h; exact EwParse.noConfusion h
      | some p3 =>
        obtain ⟨payload, r3⟩ := p3
        simp only [h3] at h
        have hr3 : r3.length < l.length := by
          have a1 := splitAtChar_length h1
          have a2 := splitAtChar_length h2
          have a3 := splitAtQEq_length h3
          omega
        by_cases hb : pyToLower (String.mk e) = "b"
        · rw [if_pos hb] at h
          cases h4 : b64Decode (String.mk payload) with
          | none => simp only [h4] at h; exact EwParse.noConfusion h
          | some bs2 => simp only [h4] at h; cases h; exact hr3
        · rw [if_neg hb] at h
          by_cases hq : pyToLower (String.mk e) = "q"
          · rw [if_pos hq] at h; cases h; exact hr3
          · rw [if_neg hq] at h; exact absurd h (by simp)

/-- Turns the pending reversed plain-text run into at most one byte
fragment with no declared charset (the stdlib's raw-unicode-escape of an
unencoded gap, modeled as code points). -/
def plainChunk (acc : List Char) : List ((String ⊕ List Nat) × Option String) :=
  if acc.isEmpty then [] else [(Sum.inr (acc.reverse.map Char.toNat), none)]

/-- Scanning worker for the `decode_header` model: walks the header,
collecting plain runs and encoded words; `none` models a raised
`HeaderParseError`. -/
def decodeHeaderScan :
    List Char → List Char → Option (List ((String ⊕ List Nat) × Option String))
  | [], acc => some (plainChunk acc)
  | '=' :: '?' :: rest, acc =>
    match h : parseEncodedWord rest with
    | .ok bs cs r =>
      (decodeHeaderScan r []).map (fun tail => plainChunk acc ++ (Sum.inr bs, cs) :: tail)
    | .failed => none
    | .notWord => decodeHeaderScan ('?' :: rest) ('=' :: acc)
  | c :: rest, acc => decodeHeaderScan rest (c :: acc)
termination_by l _ => l.length
decreasing_by
  · have := parseEncodedWord_length h
    simp
    omega
  · simp
  · simp

/-- Models stdlib `email.header.decode_header`: a header with no encoded
word comes back whole as a `(str, None)` fragment; otherwise the header is
scanned for encoded words. -/
def decodeHeaderModel (s : String) :
    Option (List ((String ⊕ List Nat) × Option String)) :=
  if strContainsSub s "=?" then decodeHeaderScan s.data []
  else some [(Sum.inl s, none)]

namespace EncodedHeader

/-- Models `EncodedHeader._fallback`: strict UTF-8 first, then Latin-1 with
replacement; Latin-1 decoding of bytes is total, so the final
escaped-`repr` branch of the source is unreachable but kept. -/
def fallback (text : List Nat) : String :=
  match utf8DecodeStrict text with
  | some cs => String.mk cs
  | none =>
    match (some (String.mk (latin1Chars text)) : Option String) with
    | some s => s
    | none => reprBytes text

/-- Models the byte-fragment arm of the loop in `EncodedHeader.decode`:
strict decode with the declared charset when one is present and truthy,
falling back to `_fallback` when it is absent, empty, or fails. -/
def decodeBytesPart (text : List Nat) (enc : Option String) : String :=
  match enc with
  | some e =>
    if e ≠ "" then
      match strictDecodeCharset e text with
      | some decoded => decoded
      | none => fallback text
    else fallback text
  | none => fallback text

/-- Models one iteration of the fragment loop in `EncodedHeader.decode`:
byte fragments go through the decode cascade, string fragments are appended
as-is. -/
def processPart : (String ⊕ List Nat) × Option String → String
  | (Sum.inr b, enc) => decodeBytesPart b enc
  | (Sum.inl t, _) => t

/-- Models `EncodedHeader.decode`: `None` → empty; otherwise strip CR/LF,
split into fragments via `decode_header` (a raise there yields the empty
string), decode each fragment, and concatenate. -/
def decode (value : Option String) : String :=
  match value with
  | none => ""
  | some v =>
    let cleaned := RawHeaderText.remove_crlf v
    match decodeHeaderModel cleaned with
    | none => ""
    | some parts => String.join (parts.map processPart)

end EncodedHeader

namespace MailStringUtils

/-- Facade `MailStringUtils.sanitize_csv_field`. -/
def sanitize_csv_field : Option String → String := CsvFieldText.sanitize

/-- Facade `MailStringUtils.stringify`. -/
def stringify : PyVal → String := AnyText.to_str

/-- Facade `MailStringUtils.decode_header`. -/
def decode_header : Option String → String := EncodedHeader.decode

/-- Facade `MailStringUtils.remove_crlf`. -/
def remove_crlf : String → String := RawHeaderText.remove_crlf

end MailStringUtils

/-! ## src/search_pattern.py

The compiled regular expressions that the claims exercise are all of a very
small shape: a sequence of single-character atoms, each either a literal
character or a character class. `ReAtom`/`reSearch` give that fragment of
Python `re` semantics (`re.search`: match anywhere in the line). The
`re.DOTALL` flag passed by the source only changes the meaning of `.`,
which none of the considered patterns contain. -/

/-- One single-character atom of a compiled Python regex. -/
inductive ReAtom where
  | ch : Char → ReAtom
  | anyOf : List Char → ReAtom
deriving DecidableEq

/-- Tests one atom against one character. -/
def atomMatch (a : ReAtom) (c : Char) : Bool :=
  match a with
  | .ch x => x == c
  | .anyOf cs => cs.contains c

/-- Tests whether the atom sequence matches a prefix of `l`. -/
def atomsMatchHere : List ReAtom → List Char → Bool
  | [], _ => true
  | _ :: _, [] => false
  | a :: ps, c :: cs => atomMatch a c && atomsMatchHere ps cs

/-- Tests whether the atom sequence matches starting at some position. -/
def atomsSearch (p : List ReAtom) : List Char → Bool
  | [] => atomsMatchHere p []
  | l@(_ :: cs) => atomsMatchHere p l || atomsSearch p cs

/-- Models `compiled_pattern.search(line)` (truthiness of the match) for
compiled patterns in the `List ReAtom` fragment. -/
def reSearch (p : List ReAtom) (s : String) : Bool := atomsSearch p s.data

/-- One `re.sub` pass of `SearchPattern._egrep_to_python_regex` for a key of
the regex form `\[<class>\]`: as a regex this matches a literal `[`, then
ONE character drawn from the bracketed class (for the digit key the class
`[:digit:]` is the character set `:`, `d`, `i`, `g`, `t`), then a literal
`]`. So the pass replaces each non-overlapping three-character occurrence
`[c]` with `c` in `cls`, scanning left to right exactly as `re.sub` does. -/
def subBracketFuel (cls : List Char) (repl : List Char) : Nat → List Char → List Char
  | 0, l => l
  | _ + 1, [] => []
  | fuel + 1, x :: xs =>
    if x = '[' then
      match xs with
      | c :: ']' :: rest =>
        if cls.contains c then repl ++ subBracketFuel cls repl fuel rest
        else x :: subBracketFuel cls repl fuel xs
      | _ => x :: subBracketFuel cls repl fuel xs
    else x :: subBracketFuel cls repl fuel xs

def subBracketClass (cls : List Char) (repl : List Char) (l : List Char) : List Char :=
  subBracketFuel cls repl (l.length + 1) l

/-- Models `SearchPattern._egrep_to_python_regex`. The source's
`posix_map` keys are themselves regexes: the first seven are of the
mis-escaped form `\[[:digit:]\]` handled by `subBracketClass`; the last
five keys (blank, xdigit, cntrl, print, graph) were garbled to
`$begin:math:display$[:blank:]$end:math:display$` and the like — each such
key begins with a `$` end-of-input anchor followed by required literal
text, a regex that cannot match at any position, so those five `re.sub`
passes are the identity and are modeled as such. Replacement happens via a
lambda returning the value, so the value string is inserted verbatim. -/
def egrepToPythonRegex (pattern : String) : String :=
  let p := subBracketClass [':', 'd', 'i', 'g', 't'] ('\\' :: ['d']) pattern.data
  let p := subBracketClass [':', 's', 'p', 'a', 'c', 'e'] ('\\' :: ['s']) p
  let p := subBracketClass [':', 'a', 'l', 'n', 'u', 'm'] ("[A-Za-z0-9]".data) p
  let p := subBracketClass [':', 'a', 'l', 'p', 'h'] ("[A-Za-z]".data) p
  let p := subBracketClass [':', 'l', 'o', 'w', 'e', 'r'] ("[a-z]".data) p
  let p := subBracketClass [':', 'u', 'p', 'e', 'r'] ("[A-Z]".data) p
  let p := subBracketClass [':', 'p', 'u', 'n', 'c', 't']
    ("[!\"#$%&\\\x27()*+,\\-./:;<=>?@[\\\\\\]^_`\x7b|\x7d~]".data) p
  String.mk p

/-- Models a constructed `SearchPattern`: the original pattern text and the
matcher compiled (with `re.DOTALL`) from `egrepToPythonRegex` applied to
it. The `compiled` field holds the `ReAtom` reading of that compiled
pattern; each concrete `SearchPattern` below documents why its `compiled`
field is the Python parse of its post-substitution pattern text. -/
structure SearchPattern where
  egrep : String
  compiled : List ReAtom
  dotall : Bool := true
deriving DecidableEq

/-- Modelled from the spec: `SearchPattern.check_line` is called by
`MailMessage.extract` but absent from src/search_pattern.py; per spec §4.6
it "returns whether the compiled pattern finds any match within the line
(substring search, not full-line anchor)", i.e. `re`'s `search`. -/
def SearchPattern.check_line (p : SearchPattern) (line : String) : Bool :=
  reSearch p.compiled line

/-- SearchPattern built from the pattern text `[[:digit:]]`. The
substitution pass leaves this text unchanged (proved in the C2 theorem),
and Python `re` parses the unchanged text as: `[` opens a character class,
whose body is `[:digit:` (the set `[`, `:`, `d`, `i`, `g`, `t`), closed by
the first `]`; the final `]` is a literal. -/
def digitClassSearchPattern : SearchPattern :=
  { egrep := "[[:digit:]]"
    compiled := [ReAtom.anyOf ['[', ':', 'd', 'i', 'g', 't'], ReAtom.ch ']'] }

/-- SearchPattern built from the literal pattern text `body`: the
substitution pass leaves it unchanged (proved in the C1 counterexample),
and a metacharacter-free pattern compiles to the sequence of its literal
characters. -/
def bodySearchPattern : SearchPattern :=
  { egrep := "body"
    compiled := (egrepToPythonRegex "body").data.map ReAtom.ch }

/-! ## src/mail_message.py -/

/-- One MIME leaf part as `body_lines` consumes it: declared content type,
the transfer-decoded payload bytes (`get_payload(decode=True)`, with `[]`
modeling both `None` and `b""`, which are equally falsy), and the declared
charset if any. -/
structure PyPart where
  contentType : String
  payload : List Nat
  charset : Option String
deriving DecidableEq

/-- A parsed message as the extraction code consumes it: header lookup
(stringify/decode of a field can raise, modeled by `Except`), and the
sequence of text parts that `_iter_text_parts` yields — for a multipart
message the walk's parts with a `text/` content type, for a leaf message
the message itself as the sole part. -/
structure MailMessage where
  getHeader : String → Except Unit PyVal
  textParts : List PyPart

/-- Models `MailMessage.header_lines`: for the fixed key order Subject,
From, To, Date, fetch and stringify the field, skip it only if the
stringified value is `None` (it is a `str`, so the skip never fires),
decode, flatten CR/LF, and emit `"<Key>: <decoded>"`; any exception in a
field's block yields `"<Key>: [INVALID HEADER]"` for that field alone. -/
def MailMessage.header_lines (m : MailMessage) : List String :=
  (["Subject", "From", "To", "Date"]).foldl
    (fun result k =>
      match m.getHeader k with
      | .error _ => result ++ [k ++ ": [INVALID HEADER]"]
      | .ok v0 =>
        -- source: `if v is None: continue` — but v was just produced by
        -- stringify and is a str, which is never None, so the skip below
        -- is the dead branch of that test
        match PyVal.pystr (MailStringUtils.stringify v0) with
        | .pynone => result
        | _ =>
          result ++ [k ++ ": " ++ strReplace (strReplace
            (MailStringUtils.decode_header (some (MailStringUtils.stringify v0)))
            "\r" "") "\n" " "])
    []

/-! ### HTML text extraction (BeautifulSoup model)

`body_lines` hands each `text/html` payload to BeautifulSoup
(`html.parser`), deletes the non-content elements `head`, `script`,
`style`, `meta`, `title`, `link`, and then reads `get_text("\n",
strip=True)` and `stripped_strings`. For well-formed markup without
comments or entity references, the surviving strings are exactly the
maximal text runs between tags that are not inside a deleted element;
`meta` and `link` are void elements for `html.parser`, so they delete no
enclosed text. -/

/-- Lower-cased element name of a tag's content (ignoring a leading `/`). -/
def tagNameOf (tag : List Char) : String :=
  let t := match tag with
    | '/' :: r => r
    | r => r
  String.mk ((t.takeWhile Char.isAlpha).map Char.toLower)

/-- Tests whether a tag's content denotes a closing tag. -/
def isClosingTag (tag : List Char) : Bool :=
  match tag with
  | '/' :: _ => true
  | _ => false

/-- Elements removed by the `decompose` loop in `body_lines`. -/
def decomposedTags : List String := ["head", "script", "style", "meta", "title", "link"]

/-- Void elements among those (no content of their own under
`html.parser`). -/
def voidTags : List String := ["meta", "link"]

/-- Scanner mode: inside a text run, or inside a tag whose content so far
is held reversed. -/
inductive HtmlMode where
  | text : HtmlMode
  | tag : List Char → HtmlMode
deriving DecidableEq

/-- Collects the maximal text runs outside tags, skipping everything nested
inside a decomposed non-void element; `depth` counts how deeply the scanner
is inside such elements and `acc` holds the current text run reversed. -/
def htmlSegsGo : List Char → HtmlMode → Nat → List Char → List (List Char)
  | [], _, _, acc => if acc.isEmpty then [] else [acc.reverse]
  | c :: rest, .text, depth, acc =>
    if c = '<' then
      (if acc.isEmpty then [] else [acc.reverse]) ++ htmlSegsGo rest (.tag []) depth []
    else if depth = 0 then htmlSegsGo rest .text depth (c :: acc)
    else htmlSegsGo rest .text depth acc
  | c :: rest, .tag tagAcc, depth, acc =>
    if c = '>' then
      let tag := tagAcc.reverse
      let name := tagNameOf tag
      if decomposedTags.contains name && !(voidTags.contains name) then
        if isClosingTag tag then htmlSegsGo rest .text (depth - 1) acc
        else htmlSegsGo rest .text (depth + 1) acc
      else htmlSegsGo rest .text depth acc
    else htmlSegsGo rest (.tag (c :: tagAcc)) depth acc

/-- Text runs of the HTML that survive parsing plus the decompose loop. -/
def htmlTextSegments (html : String) : List String :=
  (htmlSegsGo html.data .text 0 []).map String.mk

/-- Models `soup.stripped_strings`: every surviving string stripped, with
whitespace-only strings skipped. -/
def htmlStrippedStrings (html : String) : List String :=
  ((htmlTextSegments html).map pyStrip).filter (fun s => s ≠ "")

/-- Models `soup.get_text(separator="\n", strip=True)`: the stripped
strings joined by the separator. -/
def htmlGetTextLF (html : String) : String :=
  String.intercalate "\n" (htmlStrippedStrings html)

/-- Models the payload decode in `body_lines`:
`payload.decode(charset, errors="replace")` guarded by a bare
`except` that retries as `payload.decode("utf-8", errors="replace")`. -/
def decodePartPayload (charset : String) (payload : List Nat) : String :=
  match replaceDecodeCharset charset payload with
  | some s => s
  | none => utf8ReplaceStr payload

/-- Models `MailMessage.body_lines`: per text part with a non-empty
payload, decode it; a `text/html` part contributes the raw HTML tagged
`text/html`, each non-blank line of the tag-stripped text tagged
`text/html_textonly`, and the full concatenation (if non-empty) tagged
`text/html_concat`; any other text part contributes its non-blank lines
tagged with its content type. -/
def bodyLinesOfParts (parts : List PyPart) : List (String × String) :=
  parts.foldl
    (fun result part =>
      if part.payload.isEmpty then result
      else
        let charset := part.charset.getD "utf-8"
        let html := decodePartPayload charset part.payload
        if part.contentType = "text/html" then
          let textOnly := htmlGetTextLF html
          let tlines := (pySplitlines textOnly).filter (fun line => pyStrip line ≠ "")
          let concat := String.join (htmlStrippedStrings html)
          ((result ++ [(html, "text/html")])
              ++ tlines.map (fun line => (line, "text/html_textonly")))
            ++ (if concat ≠ "" then [(concat, "text/html_concat")] else [])
        else
          result
            ++ ((pySplitlines html).filter (fun line => pyStrip line ≠ "")).map
              (fun line => (line, part.contentType)))
    []

/-- Models `MailMessage.body_lines` on a message. -/
def MailMessage.body_lines (m : MailMessage) : List (String × String) :=
  bodyLinesOfParts m.textParts

/-- Models `SearchPattern.match_mail`: header lines that the compiled
pattern matches, tagged `header`, followed by body lines, where body lines
whose part type is neither `text/plain` nor `text/html_textonly` are
skipped before matching. -/
def SearchPattern.match_mail (p : SearchPattern) (m : MailMessage) :
    List (String × String) :=
  m.body_lines.foldl
    (fun acc lp =>
      if !(["text/plain", "text/html_textonly"].contains lp.2) then acc
      else if reSearch p.compiled lp.1 then acc ++ [(lp.2, lp.1)] else acc)
    (m.header_lines.foldl
      (fun acc line => if reSearch p.compiled line then acc ++ [("header", line)] else acc)
      [])

/-- Models `MailMessage.extract` (the duplicate of `match_mail` living in
mail_message.py, which goes through `check_line`). -/
def MailMessage.extract (m : MailMessage) (p : SearchPattern) :
    List (String × String) :=
  m.body_lines.foldl
    (fun acc lp =>
      if !(["text/plain", "text/html_textonly"].contains lp.2) then acc
      else if p.check_line lp.1 then acc ++ [(lp.2, lp.1)] else acc)
    (m.header_lines.foldl
      (fun acc line => if p.check_line line then acc ++ [("header", line)] else acc)
      [])

/-- Models `bytes.find(value)` for a single byte, as an optional index. -/
def findByte (b : Nat) : List Nat → Option Nat
  | [] => none
  | x :: xs => if x = b then some 0 else (findByte b xs).map (· + 1)

/-- Models `raw[0:1].isdigit()`: the first byte exists and is an ASCII
digit (an empty slice is not a digit). -/
def firstByteIsDigit (raw : List Nat) : Bool :=
  match raw with
  | [] => false
  | b :: _ => 0x30 ≤ b && b ≤ 0x39

/-- Models `MailMessage._read_emlx` on the container's bytes:
`raw[raw.find(b"\n") + 1:]` when the first byte is an ASCII digit (with
`find` returning -1 turning that into `raw[0:]`, the whole input),
otherwise `raw` unchanged. -/
def read_emlx (raw : List Nat) : List Nat :=
  if firstByteIsDigit raw then
    match findByte 0x0A raw with
    | some i => raw.drop (i + 1)
    | none => raw
  else raw

/-- Models the byte preprocessing of `MailMessage._load`: the `_read_emlx`
result, then one more conditional strip of a digit-led line up to the first
LF; the returned bytes are what reaches `BytesParser.parsebytes`. -/
def loadParserInput (raw : List Nat) : List Nat :=
  let data := read_emlx raw
  if firstByteIsDigit data then
    match findByte 0x0A data with
    | some nl => data.drop (nl + 1)
    | none => data
  else data

/-! ## src/mbox_classifier.py -/

/-- Module-level `EXCLUDE_TOKENS` set (iterated only through `any`, so the
set is carried as a list). -/
def EXCLUDE_TOKENS : List String :=
  ["draft", "drafts", "下書", "brouillon", "bozza", "entwurf", "borrador",
   "rascunho", "черновик",
   "trash", "deleted", "bin", "ゴミ箱", "削除済", "corbeille", "papierkorb",
   "papelera", "cestino", "корзина",
   "junk", "spam", "迷惑メール", "indesirable", "indésirable", "unerwünscht",
   "спам",
   "outbox", "送信トレイ", "posteausgang",
   "archive", "アーカイブ", "archivo", "archivio", "archiv",
   "rss", "メモ", "notes", "tasks", "タスク", "journal", "会話の履歴",
   "同期の問題", "recovered"]

/-- Module-level `SENT_TOKENS` set. -/
def SENT_TOKENS : List String :=
  ["sent", "送信済み", "送信済みアイテム", "gesendet", "inviati", "enviados",
   "envoyes", "envoyés", "отправленные"]

/-- Module-level `SPECIAL_ATTR_TOKENS` set: IMAP special-use markers, each
beginning with a literal backslash. -/
def SPECIAL_ATTR_TOKENS : List String :=
  ["\\drafts", "\\junk", "\\trash", "\\deleted", "\\bin", "\\spam",
   "\\outbox", "\\archive"]

/-- Models `MboxClassifier._norm`: NFKC-normalize, lower-case, then delete
every character matching `[\s\W_]` (whitespace, non-word characters, and
underscore). NFKC is modeled as the identity, exact for the inputs
considered here (no compatibility characters); the Unicode word class `\w`
is modeled as ASCII alphanumerics plus non-whitespace code points ≥ 0x80,
exact for the letter-based vocabulary involved. Note the result therefore
never contains a backslash, a space, or an underscore. -/
def normStr (s : String) : String :=
  String.mk ((s.data.map Char.toLower).filter
    (fun c => c.isAlphanum || (0x80 ≤ c.toNat && !c.isWhitespace)))

/-- Models `MboxClassifier._hit` for one candidate sequence: true when some
string in the sequence has a normalization containing some token as a
substring. -/
def tokenHit (tokens : List String) (strs : List String) : Bool :=
  strs.any (fun s => tokens.any (fun tok => strContainsSub (normStr s) tok))

/-- One mailbox directory as `is_excluded`/`is_sent` observe it: its name,
its parent directory's name, and — when an `Info.plist` file exists — the
flat list of strings that `_strings_from_plist` extracts from it (an
unparsable plist yields the empty list, a missing file yields `none`). -/
structure MboxDir where
  name : String
  parentName : String
  plistStrings : Option (List String)
deriving DecidableEq

/-- Name-based fallback candidates: the directory name with `.mbox`
removed, and the parent directory's name. -/
def MboxDir.fallbackNames (d : MboxDir) : List String :=
  [strReplace d.name ".mbox" "", d.parentName]

/-- Models `MboxClassifier.is_excluded`: when metadata exists, first the
special-attribute tier, then the general exclusion tier, each returning
true immediately on a hit; the directory-name fallback runs only when no
metadata file exists or neither metadata tier hit. -/
def isExcluded (d : MboxDir) : Bool :=
  match d.plistStrings with
  | some strs =>
    if tokenHit SPECIAL_ATTR_TOKENS strs then true
    else if tokenHit EXCLUDE_TOKENS strs then true
    else tokenHit EXCLUDE_TOKENS d.fallbackNames
  | none => tokenHit EXCLUDE_TOKENS d.fallbackNames

/-- Models `MboxClassifier.is_sent` (same two-tier shape). -/
def isSent (d : MboxDir) : Bool :=
  match d.plistStrings with
  | some strs =>
    if tokenHit ["\\sent"] strs then true
    else if tokenHit SENT_TOKENS strs then true
    else tokenHit SENT_TOKENS d.fallbackNames
  | none => tokenHit SENT_TOKENS d.fallbackNames

/-! ## src/mail_profile.py, src/hit_line.py, src/hit_report.py -/

/-- Models `MailProfile`, with the parsed Date header's `datetime`
represented by its POSIX timestamp — `HitReport.sort` only ever consults
`date_dt is None` and `date_dt.timestamp()`. -/
structure MailProfile where
  message_id : String
  date_str : String
  date_dt : Option Int
  link : String
  subj : String
  from_addr : String
  to_addr : String
deriving DecidableEq

/-- Models `HitLine` (with `line` already holding the stripped matched
line, as `HitLine.__init__` stores it). -/
structure HitLine where
  mail_keys : MailProfile
  mail_id : Nat
  hit_count : Nat
  parttype : String
  line : String
deriving DecidableEq

/-- Models the composite sort key of `HitReport.sort`:
`(dt is None, -(dt.timestamp() if dt else 0))`. -/
def sortKeyRow (row : HitLine) : Bool × Int :=
  (row.mail_keys.date_dt.isNone, -(row.mail_keys.date_dt.getD 0))

/-- Lexicographic tuple comparison as Python's sort uses it, with
`False < True` on the boolean coordinate. -/
def keyLE : Bool × Int → Bool × Int → Bool
  | (b1, n1), (b2, n2) => (!b1 && b2) || (b1 == b2 && decide (n1 ≤ n2))

/-- Key comparison lifted to rows. -/
def rowLE (a b : HitLine) : Bool := keyLE (sortKeyRow a) (sortKeyRow b)

/-- Stable insertion into a sorted-so-far list: the new row is placed
before the first row it compares `≤` to — for equal keys the new row stays
after nothing and before the equal one it meets, which together with the
right-to-left fold below reproduces a stable ascending sort. -/
def insertHitLine (a : HitLine) : List HitLine → List HitLine
  | [] => [a]
  | b :: l => if rowLE a b then a :: b :: l else b :: insertHitLine a l

/-- Models `HitReport.sort`: Python's `list.sort(key=_sort_key)` is a
stable ascending sort by the composite key, modeled as stable insertion
sort. -/
def sortHitLines : List HitLine → List HitLine
  | [] => []
  | a :: l => insertHitLine a (sortHitLines l)

/-- Ordering that the spec asserts for the sorted report: among dated rows
the timestamps are non-increasing (date descending), no dated row follows
an undated one. -/
def dateAfter (a b : HitLine) : Prop :=
  match a.mail_keys.date_dt, b.mail_keys.date_dt with
  | some x, some y => y ≤ x
  | some _, none => True
  | none, some _ => False
  | none, none => True

/-! ## Statement helpers and concrete instances used by the theorems -/

/-- Value part (text after `"<Key>: "`) of the `header_lines` entry for key
`k`, as the source computes it. -/
def headerEntryValue (m : MailMessage) (k : String) : String :=
  match m.getHeader k with
  | .error _ => "[INVALID HEADER]"
  | .ok v0 =>
    strReplace
      (strReplace (MailStringUtils.decode_header (some (MailStringUtils.stringify v0))) "\r" "")
      "\n" " "

/-- The HTML payload of the spec's triple-view example. -/
def sampleHtml : String := "<html><body><p>Hello</p><p>World</p></body></html>"

/-- A `text/html` part carrying `sampleHtml` UTF-8 encoded. -/
def sampleHtmlPart : PyPart := ⟨"text/html", asciiBytes sampleHtml, some "utf-8"⟩

/-- A message with empty headers whose sole text part is `sampleHtmlPart`. -/
def sampleHtmlMessage : MailMessage := ⟨fun _ => .ok .pynone, [sampleHtmlPart]⟩

/-- A hit line whose profile has the given date sort key (other fields
blank). -/
def rowWithDate (dt : Option Int) : HitLine :=
  ⟨⟨"", "", dt, "", "", "", ""⟩, 1, 1, "header", ""⟩

/-- SearchPattern built from the literal pattern text `Hello` (like
`bodySearchPattern`: the substitution pass leaves it unchanged and a
metacharacter-free pattern compiles to its literal characters). -/
def helloSearchPattern : SearchPattern :=
  { egrep := "Hello"
    compiled := (egrepToPythonRegex "Hello").data.map ReAtom.ch }

/-- A message whose Date header raises during extraction, whose From header
is a plain string, and whose remaining headers are absent. -/
def c10Message : MailMessage :=
  ⟨fun k =>
    if k = "Date" then .error ()
    else if k = "From" then .ok (.pystr "alice@example.com")
    else .ok .pynone, []⟩

/-! ## Supporting lemmas -/

private theorem pyReplaceGo_del (c : Char) :
    ∀ l : List Char, pyReplaceGo [c] [] 0 l = l.filter (fun x => x ≠ c) := by
  intro l
  induction l with
  | nil => rfl
  | cons x xs ih =>
    by_cases hx : x = c
    · subst hx
      simp [pyReplaceGo, listStartsWith, ih]
    · simp [pyReplaceGo, listStartsWith, hx, Ne.symm hx, ih]

private theorem pyReplaceGo_map (c r : Char) :
    ∀ l : List Char, pyReplaceGo [c] [r] 0 l = l.map (fun x => if x = c then r else x) := by
  intro l
  induction l with
  | nil => rfl
  | cons x xs ih =>
    by_cases hx : x = c
    · subst hx
      simp [pyReplaceGo, listStartsWith, ih]
    · simp [pyReplaceGo, listStartsWith, hx, Ne.symm hx, ih]

private theorem remove_crlf_data (s : String) :
    (RawHeaderText.remove_crlf s).data
      = (s.data.filter (fun c => c ≠ '\r')).map (fun c => if c = '\n' then ' ' else c) := by
  by_cases hs : s = ""
  · subst hs
    rfl
  · unfold RawHeaderText.remove_crlf strReplace pyReplace
    rw [if_neg hs]
    simp only [show ("\r" : String).data = ['\r'] from rfl,
      show ("\n" : String).data = ['\n'] from rfl,
      show ("" : String).data = ([] : List Char) from rfl,
      show (" " : String).data = [' '] from rfl]
    rw [if_neg (by simp), if_neg (by simp)]
    show pyReplaceGo ['\n'] [' '] 0 (pyReplaceGo ['\r'] [] 0 s.data) = _
    rw [pyReplaceGo_del, pyReplaceGo_map]

private theorem sanitize_data (s : String) :
    (CsvFieldText.sanitize (some s)).data
      = (s.data.filter (fun c => c ≠ '\r')).map (fun c => if c = '\n' then '⏎' else c) := by
  unfold CsvFieldText.sanitize CsvFieldText.to_str strReplace pyReplace
  simp only [show ("\r" : String).data = ['\r'] from rfl,
    show ("\n" : String).data = ['\n'] from rfl,
    show ("" : String).data = ([] : List Char) from rfl,
    show ("⏎" : String).data = ['⏎'] from rfl]
  rw [if_neg (by simp), if_neg (by simp)]
  show pyReplaceGo ['\n'] ['⏎'] 0 (pyReplaceGo ['\r'] [] 0 s.data) = _
  rw [pyReplaceGo_del, pyReplaceGo_map]

/-! ## Claim theorems -/

/-- Claim C7, as stated, is false at its own concrete example: dropping the
CRs and replacing each LF of `"a\r\nb\nc"` by U+23CE yields `"a⏎b⏎c"` (two
glyphs), not the claimed `"ab⏎c"`. -/
theorem sanitize_cell_example_differs :
    CsvFieldText.sanitize (some "a\r\nb\nc") = "a⏎b⏎c"
      ∧ ("a⏎b⏎c" : String) ≠ "ab⏎c" := by
  constructor
  · decide
  · decide

/-- Claim C7 (amended): the two line-break policies are distinct —
`strip_line_breaks` (`remove_crlf`) removes every CR and replaces every LF
with a single space, so `strip_line_breaks("a\r\nb\nc") = "a b c"`;
`sanitize_cell` drops every CR and replaces every LF with U+23CE with no
intervening space, so `sanitize_cell("a\r\nb\nc") = "a⏎b⏎c"` (not
`"ab⏎c"`). The last two conjuncts state the per-character policies for
every input. -/
theorem crlf_policy_distinction :
    RawHeaderText.remove_crlf "a\r\nb\nc" = "a b c"
      ∧ CsvFieldText.sanitize (some "a\r\nb\nc") = "a⏎b⏎c"
      ∧ (∀ s : String, (RawHeaderText.remove_crlf s).data
          = (s.data.filter (fun c => c ≠ '\r')).map (fun c => if c = '\n' then ' ' else c))
      ∧ (∀ s : String, (CsvFieldText.sanitize (some s)).data
          = (s.data.filter (fun c => c ≠ '\r')).map (fun c => if c = '\n' then '⏎' else c)) :=
  ⟨by decide, by decide, remove_crlf_data, sanitize_data⟩

/-- Claim C8: a byte string whose first byte is not an ASCII digit passes
through `_read_emlx` unchanged; `b"37\n" ++ payload` comes back as exactly
`payload`, for every payload whatsoever — the declared length 37 is never
compared with the payload's actual size. -/
theorem container_framing_strip :
    (∀ raw : List Nat, firstByteIsDigit raw = false → read_emlx raw = raw)
      ∧ (∀ payload : List Nat, read_emlx (asciiBytes "37\n" ++ payload) = payload) := by
  constructor
  · intro raw h
    unfold read_emlx
    rw [h]
    simp
  · intro payload
    have ha : asciiBytes "37\n" = [51, 55, 10] := rfl
    rw [ha]
    unfold read_emlx
    norm_num [firstByteIsDigit, findByte]

/-- Witness for C8 at concrete inputs: `b"F"` (not digit-led) is returned
unchanged, and `b"37\nA"` is returned as `b"A"`. -/
theorem container_framing_strip_witness :
    read_emlx [70] = [70] ∧ read_emlx [51, 55, 10, 65] = [65] :=
  ⟨container_framing_strip.1 [70] (by decide),
   (show asciiBytes "37\n" ++ [65] = [51, 55, 10, 65] from rfl)
     ▸ container_framing_strip.2 [65]⟩

/-- Claim C9: `_load` applies the digit-led-line strip a second time to the
bytes `_read_emlx` already stripped, so when the remaining bytes still
begin with an ASCII digit and contain an LF, a second line is discarded
before parsing; from `b"12\n42 apples\nFrom: x"` the parser receives
`b"From: x"`, not `b"42 apples\nFrom: x"`. -/
theorem load_strips_digit_line_twice :
    (∀ (raw : List Nat) (i : Nat), firstByteIsDigit (read_emlx raw) = true →
        findByte 0x0A (read_emlx raw) = some i →
        loadParserInput raw = (read_emlx raw).drop (i + 1))
      ∧ loadParserInput (asciiBytes "12\n42 apples\nFrom: x") = asciiBytes "From: x"
      ∧ read_emlx (asciiBytes "12\n42 apples\nFrom: x") = asciiBytes "42 apples\nFrom: x" := by
  refine ⟨?_, by decide, by decide⟩
  intro raw i h1 h2
  unfold loadParserInput
  simp only []
  rw [h1, h2]
  simp

/-- Witness for C9 at the concrete container `b"12\n42 apples\nFrom: x"`
(the first LF of the once-stripped bytes sits at index 9). -/
theorem load_strips_digit_line_twice_witness :
    loadParserInput (asciiBytes "12\n42 apples\nFrom: x")
      = (read_emlx (asciiBytes "12\n42 apples\nFrom: x")).drop 10 :=
  load_strips_digit_line_twice.1 (asciiBytes "12\n42 apples\nFrom: x") 9
    (by decide) (by decide)

/-- Claim C2: the code does NOT behave as claimed — this theorem evaluates
the code at the failing input. The substitution pass leaves the pattern
`[[:digit:]]` unchanged (its mis-escaped key regex `\[[:digit:]\]` matches
only three-character runs like `[d]`, which the sixth conjunct shows being
replaced); the unchanged pattern compiles to "one character from
`[`, `:`, `d`, `i`, `g`, `t`, then a literal `]`", so `check_line` rejects
the digit-bearing line `"5"` and accepts the digit-free line `"t]"`. -/
theorem posix_digit_class_not_substituted :
    egrepToPythonRegex "[[:digit:]]" = "[[:digit:]]"
      ∧ digitClassSearchPattern.egrep = "[[:digit:]]"
      ∧ digitClassSearchPattern.dotall = true
      ∧ SearchPattern.check_line digitClassSearchPattern "5" = false
      ∧ "5".data.any Char.isDigit = true
      ∧ SearchPattern.check_line digitClassSearchPattern "t]" = true
      ∧ "t]".data.any Char.isDigit = false
      ∧ egrepToPythonRegex "[d]" = "\\d" := by
  refine ⟨by decide, rfl, rfl, by decide, by decide, by decide, by decide, by decide⟩

/-- Claim C5: for the payload
`<html><body><p>Hello</p><p>World</p></body></html>` in a part whose
content type is exactly `text/html`, body-line extraction yields exactly
one `text/html` entry holding the raw markup, the two `text/html_textonly`
entries `"Hello"` and `"World"` in that order, and one `text/html_concat`
entry `"HelloWorld"` with no separator. -/
theorem html_triple_view_extraction :
    sampleHtmlMessage.body_lines
      = [(sampleHtml, "text/html"),
         ("Hello", "text/html_textonly"),
         ("World", "text/html_textonly"),
         ("HelloWorld", "text/html_concat")] := by
  decide

/-- Claim C6: a mailbox whose metadata strings contain the Drafts
special-attribute marker `\Drafts` is excluded whatever its directory and
parent names are (in particular names carrying Sent vocabulary); with no
metadata file, or with metadata matching neither tier, `is_excluded`
reduces to exactly the name fallback; and a metadata hit in either tier
forces exclusion without the names being consulted. (In the source the
backslash-led marker can never match tier ① itself, because `_norm` strips
backslashes — the marker instead hits the `draft` token of tier ②, so the
observable precedence is as claimed.) -/
theorem mbox_exclusion_precedence :
    (∀ (d : MboxDir) (strs : List String), d.plistStrings = some strs →
        "\\Drafts" ∈ strs → isExcluded d = true)
      ∧ (∀ d : MboxDir, d.plistStrings = none →
          isExcluded d = tokenHit EXCLUDE_TOKENS d.fallbackNames)
      ∧ (∀ (d : MboxDir) (strs : List String), d.plistStrings = some strs →
          tokenHit SPECIAL_ATTR_TOKENS strs = false →
          tokenHit EXCLUDE_TOKENS strs = false →
          isExcluded d = tokenHit EXCLUDE_TOKENS d.fallbackNames)
      ∧ (∀ (d : MboxDir) (strs : List String), d.plistStrings = some strs →
          (tokenHit SPECIAL_ATTR_TOKENS strs || tokenHit EXCLUDE_TOKENS strs) = true →
          isExcluded d = true) := by
  refine ⟨?_, ?_, ?_, ?_⟩
  · intro d strs hp hmem
    have hhit : tokenHit EXCLUDE_TOKENS strs = true := by
      unfold tokenHit
      rw [List.any_eq_true]
      exact ⟨"\\Drafts", hmem, by decide⟩
    unfold isExcluded
    rw [hp]
    cases hsp : tokenHit SPECIAL_ATTR_TOKENS strs <;> simp [hhit]
  · intro d hp
    unfold isExcluded
    rw [hp]
  · intro d strs hp h1 h2
    unfold isExcluded
    rw [hp]
    simp [h1, h2]
  · intro d strs hp h
    unfold isExcluded
    rw [hp]
    cases hsp : tokenHit SPECIAL_ATTR_TOKENS strs <;> simp_all

/-- Witness for C6: the mailbox directory named `Sent.mbox` (Sent
vocabulary in its name) whose metadata carries `\Drafts` is excluded. -/
theorem mbox_exclusion_precedence_witness :
    isExcluded ⟨"Sent.mbox", "Mail", some ["\\Drafts"]⟩ = true :=
  mbox_exclusion_precedence.1 ⟨"Sent.mbox", "Mail", some ["\\Drafts"]⟩
    ["\\Drafts"] rfl (by simp)

private theorem utf8DecodeStrict_ne_nil {l : List Nat} {cs : List Char}
    (hl : l ≠ []) (h : utf8DecodeStrict l = some cs) : cs ≠ [] := by
  cases l with
  | nil => exact absurd rfl hl
  | cons b rest =>
    unfold utf8DecodeStrict at h
    rw [show (b :: rest).length + 1 = rest.length + 1 + 1 from by simp] at h
    simp only [utf8StrictFuel] at h
    repeat' split at h
    all_goals first
      | (obtain ⟨cs0, -, hcs⟩ := Option.map_eq_some'.mp h
         rw [← hcs]
         simp)
      | (exact absurd h (by simp))

/-- Claim C3 (amended): `EncodedHeader.decode` is a total function into
strings (exceptions from `decode_header` and from every strict decode are
caught where the source catches them), and for every NON-EMPTY byte
fragment whose declared charset is absent, empty, or fails strict decoding,
the cascading fallback produces a NON-EMPTY string; the original claim's
stronger assertion — that `decode` itself returns a non-empty string for
every non-empty input — is refuted by the CR-only counterexample, whose
CR/LF strip leaves nothing to decode. -/
theorem header_decode_fallback_nonempty :
    (∀ text : List Nat, text ≠ [] → EncodedHeader.fallback text ≠ "")
      ∧ (∀ (text : List Nat) (enc : Option String), text ≠ [] →
          (enc = none ∨ enc = some ""
            ∨ ∃ e, enc = some e ∧ strictDecodeCharset e text = none) →
          EncodedHeader.decodeBytesPart text enc ≠ "")
      ∧ EncodedHeader.decode none = "" := by
  have hfb : ∀ text : List Nat, text ≠ [] → EncodedHeader.fallback text ≠ "" := by
    intro text ht
    unfold EncodedHeader.fallback
    cases hu : utf8DecodeStrict text with
    | some cs =>
      have hne := utf8DecodeStrict_ne_nil ht hu
      intro hc
      have := congrArg String.data hc
      simp at this
      exact hne this
    | none =>
      intro hc
      have := congrArg String.data hc
      simp [latin1Chars] at this
      exact ht this
  refine ⟨hfb, ?_, rfl⟩
  intro text enc ht henc
  rcases henc with rfl | rfl | ⟨e, rfl, hsd⟩
  · exact hfb text ht
  · have hred : EncodedHeader.decodeBytesPart text (some "") = EncodedHeader.fallback text := by
      simp [EncodedHeader.decodeBytesPart]
    rw [hred]
    exact hfb text ht
  · by_cases he : e = ""
    · subst he
      have hred : EncodedHeader.decodeBytesPart text (some "")
          = EncodedHeader.fallback text := by
        simp [EncodedHeader.decodeBytesPart]
      rw [hred]
      exact hfb text ht
    · have hred : EncodedHeader.decodeBytesPart text (some e)
          = EncodedHeader.fallback text := by
        simp only [EncodedHeader.decodeBytesPart]
        rw [if_pos (show e ≠ "" from he)]
        simp only [hsd]
      rw [hred]
      exact hfb text ht

/-- Witness for C3 (amended) at the fragment `b"\xff"` with the unknown
charset name `x-unknown`: both the raw fallback and the full cascade
produce a non-empty string. -/
theorem header_decode_fallback_nonempty_witness :
    EncodedHeader.fallback [255] ≠ ""
      ∧ EncodedHeader.decodeBytesPart [255] (some "x-unknown") ≠ "" :=
  ⟨header_decode_fallback_nonempty.1 [255] (by decide),
   header_decode_fallback_nonempty.2.1 [255] (some "x-unknown") (by decide)
     (Or.inr (Or.inr ⟨"x-unknown", rfl, by decide⟩))⟩

/-- Claim C3, as stated, is false in its non-emptiness part: the non-empty
header value `"\r"` decodes to the empty string, because the CR/LF strip
performed before `decode_header` leaves the empty string. -/
theorem header_decode_empty_on_nonempty_input :
    EncodedHeader.decode (some "\r") = "" ∧ ("\r" : String) ≠ "" :=
  ⟨by decide, by decide⟩

private theorem keyLE_total (x y : Bool × Int) : keyLE x y = true ∨ keyLE y x = true := by
  obtain ⟨b1, n1⟩ := x
  obtain ⟨b2, n2⟩ := y
  cases b1 <;> cases b2 <;> simp [keyLE] <;> omega

private theorem keyLE_trans {x y z : Bool × Int} (h1 : keyLE x y = true)
    (h2 : keyLE y z = true) : keyLE x z = true := by
  obtain ⟨b1, n1⟩ := x
  obtain ⟨b2, n2⟩ := y
  obtain ⟨b3, n3⟩ := z
  cases b1 <;> cases b2 <;> cases b3 <;> simp_all [keyLE] <;> omega

private theorem keyLE_refl (x : Bool × Int) : keyLE x x = true := by
  obtain ⟨b, n⟩ := x
  simp [keyLE]

private theorem mem_insertHitLine {x a : HitLine} :
    ∀ {l : List HitLine}, x ∈ insertHitLine a l → x = a ∨ x ∈ l := by
  intro l
  induction l with
  | nil =>
    intro h
    simp [insertHitLine] at h
    exact Or.inl h
  | cons b bl ih =>
    intro h
    rw [insertHitLine] at h
    split at h
    · rcases List.mem_cons.mp h with h1 | h1
      · exact Or.inl h1
      · exact Or.inr h1
    · rcases List.mem_cons.mp h with h1 | h1
      · exact Or.inr (List.mem_cons.mpr (Or.inl h1))
      · rcases ih h1 with h2 | h2
        · exact Or.inl h2
        · exact Or.inr (List.mem_cons.mpr (Or.inr h2))

private theorem pairwise_insertHitLine {a : HitLine} :
    ∀ {l : List HitLine}, List.Pairwise (fun u v => rowLE u v = true) l →
      List.Pairwise (fun u v => rowLE u v = true) (insertHitLine a l) := by
  intro l
  induction l with
  | nil =>
    intro _
    simp [insertHitLine]
  | cons b bl ih =>
    intro hs
    rcases List.pairwise_cons.mp hs with ⟨hb, hbl⟩
    rw [insertHitLine]
    split
    · rename_i hab
      refine List.pairwise_cons.mpr ⟨?_, hs⟩
      intro x hx
      rcases List.mem_cons.mp hx with rfl | hx'
      · exact hab
      · exact keyLE_trans hab (hb x hx')
    · rename_i hab
      have hba : rowLE b a = true := by
        rcases keyLE_total (sortKeyRow a) (sortKeyRow b) with h | h
        · exact absurd h hab
        · exact h
      refine List.pairwise_cons.mpr ⟨?_, ih hbl⟩
      intro x hx
      rcases mem_insertHitLine hx with rfl | hx'
      · exact hba
      · exact hb x hx'

private theorem pairwise_sortHitLines :
    ∀ l : List HitLine, List.Pairwise (fun u v => rowLE u v = true) (sortHitLines l) := by
  intro l
  induction l with
  | nil => simp [sortHitLines]
  | cons a al ih => exact pairwise_insertHitLine ih

private theorem dateAfter_of_rowLE {a b : HitLine} (h : rowLE a b = true) : dateAfter a b := by
  unfold rowLE sortKeyRow keyLE at h
  unfold dateAfter
  rcases ha : a.mail_keys.date_dt with _ | x <;> rcases hb : b.mail_keys.date_dt with _ | y <;>
    rw [ha, hb] at h <;> simp_all <;> omega

private theorem filter_insertHitLine_eq {a : HitLine} {k : Bool × Int}
    (hk : sortKeyRow a = k) :
    ∀ l : List HitLine,
      (insertHitLine a l).filter (fun r => decide (sortKeyRow r = k))
        = a :: l.filter (fun r => decide (sortKeyRow r = k)) := by
  intro l
  induction l with
  | nil => simp [insertHitLine, hk]
  | cons b bl ih =>
    rw [insertHitLine]
    split
    · simp [hk]
    · rename_i hab
      have hbk : ¬(sortKeyRow b = k) := by
        intro hbk
        apply hab
        unfold rowLE
        rw [hk, hbk]
        exact keyLE_refl k
      simp only [List.filter_cons, hbk, decide_eq_true_eq, if_neg hbk]
      rw [ih]
      simp [hbk]

private theorem filter_insertHitLine_ne {a : HitLine} {k : Bool × Int}
    (hk : ¬(sortKeyRow a = k)) :
    ∀ l : List HitLine,
      (insertHitLine a l).filter (fun r => decide (sortKeyRow r = k))
        = l.filter (fun r => decide (sortKeyRow r = k)) := by
  intro l
  induction l with
  | nil => simp [insertHitLine, hk]
  | cons b bl ih =>
    rw [insertHitLine]
    split
    · simp [hk]
    · simp only [List.filter_cons]
      rw [ih]

private theorem sortHitLines_filter (k : Bool × Int) :
    ∀ l : List HitLine,
      (sortHitLines l).filter (fun r => decide (sortKeyRow r = k))
        = l.filter (fun r => decide (sortKeyRow r = k)) := by
  intro l
  induction l with
  | nil => rfl
  | cons a al ih =>
    show (insertHitLine a (sortHitLines al)).filter _ = _
    by_cases hk : sortKeyRow a = k
    · rw [filter_insertHitLine_eq hk, ih]
      simp [hk]
    · rw [filter_insertHitLine_ne hk, ih]
      simp [hk]

/-- Claim C4: after `HitReport.sort()`, every pair of rows in order
satisfies the date ordering — dated rows non-increasing by timestamp, no
dated row after an undated one (so all `None` rows sit at the end); rows
with equal composite sort keys (including all the undated rows) keep their
original relative order — stated as: filtering the sorted list to any fixed
key value gives exactly the filtering of the input; and the spec's concrete
example sorts `[2024-01-01, None, 2025-01-01]` (as POSIX timestamps) to
`[2025-01-01, 2024-01-01, None]`. -/
theorem hit_report_sort_ordering :
    (∀ l : List HitLine, List.Pairwise dateAfter (sortHitLines l))
      ∧ (∀ (l : List HitLine) (k : Bool × Int),
          (sortHitLines l).filter (fun r => decide (sortKeyRow r = k))
            = l.filter (fun r => decide (sortKeyRow r = k)))
      ∧ sortHitLines
            [rowWithDate (some 1704067200), rowWithDate none, rowWithDate (some 1735689600)]
          = [rowWithDate (some 1735689600), rowWithDate (some 1704067200), rowWithDate none] := by
  refine ⟨?_, fun l k => sortHitLines_filter k l, by decide⟩
  intro l
  exact (pairwise_sortHitLines l).imp (fun h => dateAfter_of_rowLE h)

private theorem body_step_cases (p : SearchPattern) (acc : List (String × String))
    (lp : String × String) :
    (if !(["text/plain", "text/html_textonly"].contains lp.2) then acc
     else if reSearch p.compiled lp.1 then acc ++ [(lp.2, lp.1)] else acc) = acc
    ∨ ((if !(["text/plain", "text/html_textonly"].contains lp.2) then acc
        else if reSearch p.compiled lp.1 then acc ++ [(lp.2, lp.1)] else acc)
          = acc ++ [(lp.2, lp.1)]
        ∧ (lp.2 = "text/plain" ∨ lp.2 = "text/html_textonly")) := by
  by_cases hc : ["text/plain", "text/html_textonly"].contains lp.2 = true
  · have hdis : lp.2 = "text/plain" ∨ lp.2 = "text/html_textonly" := by
      have hc' := hc
      simp at hc'
      exact hc'
    have hcond : (!(["text/plain", "text/html_textonly"].contains lp.2)) = false := by
      rcases hdis with h | h <;> rw [h] <;> decide
    by_cases hs : reSearch p.compiled lp.1 = true
    · right
      refine ⟨?_, hdis⟩
      rw [if_neg (by rw [hcond]; simp), if_pos hs]
    · left
      rw [if_neg (by rw [hcond]; simp), if_neg hs]
  · left
    simp [Bool.not_eq_true] at hc
    simp [hc]

private theorem body_fold_types (p : SearchPattern) :
    ∀ (bl : List (String × String)) (acc : List (String × String)) (e : String × String),
      e ∈ bl.foldl
        (fun acc lp =>
          if !(["text/plain", "text/html_textonly"].contains lp.2) then acc
          else if reSearch p.compiled lp.1 then acc ++ [(lp.2, lp.1)] else acc) acc →
      e ∈ acc ∨ e.1 = "text/plain" ∨ e.1 = "text/html_textonly" := by
  intro bl
  induction bl with
  | nil => intro acc e h; exact Or.inl h
  | cons lp bl' ih =>
    intro acc e h
    rw [List.foldl_cons] at h
    rcases ih _ e h with h1 | h1
    · rcases body_step_cases p acc lp with hst | ⟨hst, htyp⟩
      · rw [hst] at h1
        exact Or.inl h1
      · rw [hst] at h1
        rcases List.mem_append.mp h1 with h2 | h2
        · exact Or.inl h2
        · right
          have he : e = (lp.2, lp.1) := by simpa using h2
          rw [he]
          exact htyp
    · exact Or.inr h1

private theorem body_fold_mono (p : SearchPattern) :
    ∀ (bl : List (String × String)) (acc : List (String × String)) (e : String × String),
      e ∈ acc →
      e ∈ bl.foldl
        (fun acc lp =>
          if !(["text/plain", "text/html_textonly"].contains lp.2) then acc
          else if reSearch p.compiled lp.1 then acc ++ [(lp.2, lp.1)] else acc) acc := by
  intro bl
  induction bl with
  | nil => intro acc e h; exact h
  | cons lp bl' ih =>
    intro acc e h
    rw [List.foldl_cons]
    apply ih
    rcases body_step_cases p acc lp with hst | ⟨hst, -⟩
    · rw [hst]; exact h
    · rw [hst]; exact List.mem_append.mpr (Or.inl h)

private theorem body_fold_cover (p : SearchPattern) :
    ∀ (bl : List (String × String)) (acc : List (String × String)) (line ptype : String),
      (line, ptype) ∈ bl →
      (ptype = "text/plain" ∨ ptype = "text/html_textonly") →
      reSearch p.compiled line = true →
      (ptype, line) ∈ bl.foldl
        (fun acc lp =>
          if !(["text/plain", "text/html_textonly"].contains lp.2) then acc
          else if reSearch p.compiled lp.1 then acc ++ [(lp.2, lp.1)] else acc) acc := by
  intro bl
  induction bl with
  | nil => intro acc line ptype h; exact absurd h (by simp)
  | cons lp bl' ih =>
    intro acc line ptype hmem htype hsearch
    rw [List.foldl_cons]
    rcases List.mem_cons.mp hmem with heq | htl
    · subst heq
      apply body_fold_mono
      have hcond : (!(["text/plain", "text/html_textonly"].contains (line, ptype).2))
          = false := by
        rcases htype with h | h <;> rw [h] <;> rfl
      rw [if_neg (by rw [hcond]; simp),
        if_pos (show reSearch p.compiled (line, ptype).1 = true from hsearch)]
      apply List.mem_append.mpr
      right
      simp
    · exact ih _ line ptype htl htype hsearch

private theorem header_fold_types (p : SearchPattern) :
    ∀ (hl : List String) (acc : List (String × String)) (e : String × String),
      e ∈ hl.foldl
        (fun acc line => if reSearch p.compiled line then acc ++ [("header", line)] else acc)
        acc →
      e ∈ acc ∨ e.1 = "header" := by
  intro hl
  induction hl with
  | nil => intro acc e h; exact Or.inl h
  | cons line hl' ih =>
    intro acc e h
    rw [List.foldl_cons] at h
    rcases ih _ e h with h1 | h1
    · by_cases hs : reSearch p.compiled line = true
      · rw [if_pos hs] at h1
        rcases List.mem_append.mp h1 with h2 | h2
        · exact Or.inl h2
        · right
          have he : e = ("header", line) := by simpa using h2
          rw [he]
      · rw [if_neg hs] at h1
        exact Or.inl h1
    · exact Or.inr h1

/-- Claim C1 (amended): matching does NOT cover the raw-HTML or
concatenated views — `match_mail` (and its duplicate `extract`) only tests
header lines plus the body entries whose part type is `text/plain` or
`text/html_textonly`. Every produced hit carries one of those three tags;
conversely every matching body line of a searched type does become a hit
tagged with its part type; and `extract` agrees with `match_mail`. -/
theorem match_mail_filters_part_types :
    (∀ (p : SearchPattern) (m : MailMessage) (e : String × String),
        e ∈ p.match_mail m →
        e.1 = "header" ∨ e.1 = "text/plain" ∨ e.1 = "text/html_textonly")
      ∧ (∀ (p : SearchPattern) (m : MailMessage) (line ptype : String),
          (line, ptype) ∈ m.body_lines →
          (ptype = "text/plain" ∨ ptype = "text/html_textonly") →
          reSearch p.compiled line = true →
          (ptype, line) ∈ p.match_mail m)
      ∧ (∀ (p : SearchPattern) (m : MailMessage), m.extract p = p.match_mail m) := by
  refine ⟨?_, ?_, fun p m => rfl⟩
  · intro p m e h
    unfold SearchPattern.match_mail at h
    rcases body_fold_types p _ _ e h with h1 | h1
    · rcases header_fold_types p _ _ e h1 with h2 | h2
      · exact absurd h2 (by simp)
      · exact Or.inl h2
    · exact Or.inr h1
  · intro p m line ptype hmem htype hsearch
    unfold SearchPattern.match_mail
    exact body_fold_cover p _ _ line ptype hmem htype hsearch

/-- Witness for C1 (amended): the pattern `Hello` does hit the
`text/html_textonly` line `Hello` of the sample HTML message, and the hit
carries that part type. -/
theorem match_mail_filters_part_types_witness :
    ("text/html_textonly", "Hello")
      ∈ SearchPattern.match_mail helloSearchPattern sampleHtmlMessage :=
  match_mail_filters_part_types.2.1 helloSearchPattern sampleHtmlMessage
    "Hello" "text/html_textonly" (by decide) (Or.inr rfl) (by decide)

/-- Claim C1, as stated, is false: for the sample HTML message, the
pattern `body` occurs in the raw-HTML view (the `text/html` entry of
`body_lines` — third conjunct) and nowhere else, yet `match_mail` returns
no hit at all, because entries tagged `text/html` (and `text/html_concat`)
are filtered out before matching. -/
theorem markup_only_pattern_yields_no_hit :
    SearchPattern.match_mail bodySearchPattern sampleHtmlMessage = []
      ∧ (sampleHtml, "text/html") ∈ sampleHtmlMessage.body_lines
      ∧ reSearch bodySearchPattern.compiled sampleHtml = true
      ∧ egrepToPythonRegex "body" = "body" := by
  exact ⟨by decide, by decide, by decide, by decide⟩

private theorem header_lines_unfold (m : MailMessage) :
    m.header_lines
      = ["Subject: " ++ headerEntryValue m "Subject",
         "From: " ++ headerEntryValue m "From",
         "To: " ++ headerEntryValue m "To",
         "Date: " ++ headerEntryValue m "Date"] := by
  cases h1 : m.getHeader "Subject" <;> cases h2 : m.getHeader "From" <;>
    cases h3 : m.getHeader "To" <;> cases h4 : m.getHeader "Date" <;>
    simp [MailMessage.header_lines, headerEntryValue, h1, h2, h3, h4,
      show ("Subject" : String) ++ ": " = "Subject: " from by decide,
      show ("From" : String) ++ ": " = "From: " from by decide,
      show ("To" : String) ++ ": " = "To: " from by decide,
      show ("Date" : String) ++ ": " = "Date: " from by decide,
      show ("Subject" : String) ++ ": [INVALID HEADER]"
          = "Subject: " ++ "[INVALID HEADER]" from by decide,
      show ("From" : String) ++ ": [INVALID HEADER]"
          = "From: " ++ "[INVALID HEADER]" from by decide,
      show ("To" : String) ++ ": [INVALID HEADER]"
          = "To: " ++ "[INVALID HEADER]" from by decide,
      show ("Date" : String) ++ ": [INVALID HEADER]"
          = "Date: " ++ "[INVALID HEADER]" from by decide]

/-- Claim C10: `header_lines` always returns exactly four entries, in the
fixed order Subject, From, To, Date, each of the form `"<Key>: <value>"`.
An absent field still produces an entry with empty value — the absent-field
check compares the already-stringified value, a `str` that is never `None`,
so the skip branch is dead; a field whose extraction raises contributes
`"<Key>: [INVALID HEADER]"`, keeping the count at four. -/
theorem header_lines_fixed_shape :
    ∀ m : MailMessage,
      m.header_lines.length = 4
        ∧ m.header_lines
            = ["Subject: " ++ headerEntryValue m "Subject",
               "From: " ++ headerEntryValue m "From",
               "To: " ++ headerEntryValue m "To",
               "Date: " ++ headerEntryValue m "Date"]
        ∧ (∀ k, m.getHeader k = .ok .pynone → headerEntryValue m k = "")
        ∧ (∀ k e, m.getHeader k = .error e → headerEntryValue m k = "[INVALID HEADER]") := by
  intro m
  refine ⟨?_, header_lines_unfold m, ?_, ?_⟩
  · rw [header_lines_unfold m]
    rfl
  · intro k hk
    unfold headerEntryValue
    rw [hk]
    decide
  · intro k e hk
    unfold headerEntryValue
    rw [hk]

/-- Witness for C10 on a concrete message with an absent Subject, a plain
From, and a raising Date: four entries, empty Subject value, invalid-header
Date value. -/
theorem header_lines_fixed_shape_witness :
    c10Message.header_lines.length = 4
      ∧ headerEntryValue c10Message "Subject" = ""
      ∧ headerEntryValue c10Message "Date" = "[INVALID HEADER]" :=
  ⟨(header_lines_fixed_shape c10Message).1,
   (header_lines_fixed_shape c10Message).2.2.1 "Subject" rfl,
   (header_lines_fixed_shape c10Message).2.2.2 "Date" () rfl⟩

end MailGrep
